import Mathlib

/-!
Verification of the real-time event distribution core of the CMLRE ocean
research platform (server/services: the AI-training simulator and the
WebSocket service).  Every definition below is a shallow embedding of the
corresponding TypeScript function; theorem names refer to the frozen claim
ids.  Times are in milliseconds.  JS `number` metric values that never
influence control flow are modelled as real numbers; `Math.random()` draws
are passed as explicit parameters with their range as hypotheses.
-/

/-! ## Generic list helpers -/

/-- Boolean chain predicate: `f` holds between every two adjacent elements. -/
def chainB {α : Type} (f : α → α → Bool) : List α → Bool
  | [] => true
  | [_] => true
  | a :: b :: t => f a b && chainB f (b :: t)

theorem chainB_concat {α : Type} (f : α → α → Bool) (l : List α) (x : α)
    (hl : chainB f l = true)
    (hx : ∀ a, l.getLast? = some a → f a x = true) :
    chainB f (l ++ [x]) = true := by
  induction l with
  | nil => simp [chainB]
  | cons a t ih =>
    cases t with
    | nil =>
      simp [chainB]
      exact hx a rfl
    | cons b t2 =>
      simp only [chainB, Bool.and_eq_true] at hl
      have h2 := ih hl.2 (fun c hc => hx c (by rwa [List.getLast?_cons_cons]))
      simp only [List.cons_append, chainB, Bool.and_eq_true]
      exact ⟨hl.1, by simpa using h2⟩

/-- Lexicographic non-strict order on (epoch, batch) pairs, as a Bool. -/
def pairLeB (a b : Nat × Nat) : Bool :=
  decide (a.1 < b.1 ∨ (a.1 = b.1 ∧ a.2 ≤ b.2))

/-- Lexicographic strict order on (epoch, batch) pairs, as a Bool. -/
def pairLtB (a b : Nat × Nat) : Bool :=
  decide (a.1 < b.1 ∨ (a.1 = b.1 ∧ a.2 < b.2))

theorem pairLeB_iff (a b : Nat × Nat) :
    pairLeB a b = true ↔ (a.1 < b.1 ∨ (a.1 = b.1 ∧ a.2 ≤ b.2)) := by
  simp [pairLeB]

theorem pairLeB_refl (a : Nat × Nat) : pairLeB a a = true := by
  simp [pairLeB]

theorem pairLeB_trans {a b c : Nat × Nat} (h1 : pairLeB a b = true)
    (h2 : pairLeB b c = true) : pairLeB a c = true := by
  rw [pairLeB_iff] at h1 h2 ⊢
  omega

/-! ## Training progress status

The TypeScript union
`'initializing' | 'training' | 'validating' | 'completed' | 'failed'`
(`TrainingProgress.status` in ai-training.ts).  The first literal is
abbreviated `init` here. -/

inductive TStatus where
  | init
  | training
  | validating
  | completed
  | failed
  deriving DecidableEq, Repr

/-! ## The training simulation event loop (`simulateTraining`)

`simulateTraining` drives one job with a `setInterval` timer of period
`batchDuration = 120000 / totalBatches` ms and, per epoch boundary, one
`setTimeout` of 5000 ms that ends the validation phase.  To keep all times
integral the model multiplies every duration by `totalBatches` (so a tick
period is always 120000 scaled units and the validation delay is
`5000 * totalBatches`).  The generated loss/accuracy numbers are assigned
into the progress record but are never read by any branch of the control
flow, so the loop model tracks only the control state; the metric formulas
themselves are modelled separately (`generateLoss`, `generateAccuracy`).
Emitted events (`trainingUpdate` / `trainingComplete` / `trainingStopped`)
snapshot the status, epoch and current batch at emission time. -/

inductive SimEvKind where
  | update
  | complete
  | stopped
  deriving DecidableEq, Repr

structure SimEvent where
  kind : SimEvKind
  status : TStatus
  epoch : Nat
  batch : Nat
  deriving DecidableEq, Repr

structure SimState where
  epoch : Nat
  currentBatch : Nat
  totalEpochs : Nat
  totalBatches : Nat
  status : TStatus
  /-- Whether the `setInterval` timer is registered in `activeTraining`. -/
  intervalActive : Bool
  /-- Scaled due time of the next interval tick. -/
  nextTick : Nat
  /-- Scaled due time of the pending validation `setTimeout`, if any. -/
  pendingVal : Option Nat
  /-- Events emitted so far for this job id, in emission order. -/
  events : List SimEvent
  deriving DecidableEq, Repr

/-- Scaled validation settle delay: 5000 ms times the scaling factor. -/
def valDelay (totalBatches : Nat) : Nat := 5000 * totalBatches

/-- The body of the `setInterval` callback in `simulateTraining`. -/
def tickFire (s : SimState) : SimState :=
  if s.currentBatch < s.totalBatches then
    { s with currentBatch := s.currentBatch + 1,
             nextTick := s.nextTick + 120000,
             events := s.events ++ [⟨.update, s.status, s.epoch, s.currentBatch + 1⟩] }
  else if s.epoch + 1 ≥ s.totalEpochs then
    { s with epoch := s.epoch + 1, currentBatch := 0,
             status := TStatus.completed, intervalActive := false,
             events := s.events ++ [⟨.complete, TStatus.completed, s.epoch + 1, 0⟩] }
  else
    { s with epoch := s.epoch + 1, currentBatch := 0,
             status := TStatus.validating,
             pendingVal := some (s.nextTick + valDelay s.totalBatches),
             nextTick := s.nextTick + 120000,
             events := s.events ++ [⟨.update, TStatus.validating, s.epoch + 1, 0⟩] }

/-- The body of the validation `setTimeout` callback in `simulateTraining`. -/
def valFire (s : SimState) : SimState :=
  { s with status := TStatus.training, pendingVal := none,
           events := s.events ++ [⟨.update, TStatus.training, s.epoch, s.currentBatch⟩] }

/-- One scheduler step of the event loop: fire whichever pending timer is
due first (earliest due time; on a tie the validation timeout is taken
first — the two properties proved below do not depend on the tie order). -/
def simStep (s : SimState) : SimState :=
  match s.pendingVal with
  | some d =>
    if s.intervalActive && decide (s.nextTick < d) then tickFire s else valFire s
  | none => if s.intervalActive then tickFire s else s

/-- State right after `startTraining` has seeded the progress record and the
synchronous prefix of `simulateTraining` has run (status set to `training`,
first progress event emitted, interval registered). -/
def simStart (E B : Nat) : SimState :=
  { epoch := 0, currentBatch := 0, totalEpochs := E, totalBatches := B,
    status := TStatus.training, intervalActive := true,
    nextTick := 120000, pendingVal := none,
    events := [⟨.update, TStatus.training, 0, 0⟩] }

/-- Run `n` scheduler steps. -/
def simRun (s : SimState) : Nat → SimState
  | 0 => s
  | n + 1 => simRun (simStep s) n

/-- The `stopTraining` effect on the simulation: if the interval timer is
registered, clear it, set the status to `failed` and emit the stopped
event.  The pending validation `setTimeout` is NOT cleared (the source
never cancels it). -/
def stopSim (s : SimState) : SimState :=
  if s.intervalActive then
    { s with intervalActive := false, status := TStatus.failed,
             events := s.events ++ [⟨.stopped, TStatus.failed, s.epoch, s.currentBatch⟩] }
  else s

/-- The (epoch, batch) pairs carried by a list of events, in order. -/
def pairsOf (l : List SimEvent) : List (Nat × Nat) :=
  l.map (fun e => (e.epoch, e.batch))

/-- Whether an event carries a terminal status. -/
def isTerminalEv (e : SimEvent) : Bool :=
  e.status == TStatus.completed || e.status == TStatus.failed

/-- No event in the list is terminal. -/
def noTerminalB (l : List SimEvent) : Bool :=
  l.all (fun e => !isTerminalEv e)

/-- Every terminal event in the list is the last element. -/
def terminalLastB (l : List SimEvent) : Bool :=
  noTerminalB l.dropLast

theorem getLast?_map {α β : Type} (f : α → β) (l : List α) :
    (l.map f).getLast? = l.getLast?.map f := by
  induction l with
  | nil => rfl
  | cons a t ih =>
    cases t with
    | nil => rfl
    | cons b t2 =>
      simp only [List.map_cons, List.getLast?_cons_cons] at *
      exact ih

theorem pairsOf_concat (l : List SimEvent) (x : SimEvent) :
    pairsOf (l ++ [x]) = pairsOf l ++ [(x.epoch, x.batch)] := by
  simp [pairsOf]

theorem pairsOf_getLast? (l : List SimEvent) :
    (pairsOf l).getLast? = l.getLast?.map (fun e => (e.epoch, e.batch)) :=
  getLast?_map _ l

theorem noTerminalB_concat (l : List SimEvent) (x : SimEvent)
    (hl : noTerminalB l = true) (hx : isTerminalEv x = false) :
    noTerminalB (l ++ [x]) = true := by
  simp only [noTerminalB, List.all_append, List.all_cons, List.all_nil,
    Bool.and_eq_true] at *
  exact ⟨hl, by simp [hx]⟩

theorem noTerminalB_dropLast (l : List SimEvent) (h : noTerminalB l = true) :
    noTerminalB l.dropLast = true := by
  simp only [noTerminalB, List.all_eq_true] at *
  intro e he
  exact h e (List.dropLast_subset l he)

/-! ## Invariant of the simulation loop (for uninterrupted runs) -/

structure SimInv (s : SimState) : Prop where
  chain_ok : chainB pairLeB (pairsOf s.events) = true
  last_le : ∀ e, s.events.getLast? = some e →
    pairLeB (e.epoch, e.batch) (s.epoch, s.currentBatch) = true
  batch_le : s.currentBatch ≤ s.totalBatches
  active_noterm : s.intervalActive = true →
    noTerminalB s.events = true ∧ s.status ≠ TStatus.completed ∧ s.status ≠ TStatus.failed
  inactive : s.intervalActive = false →
    s.pendingVal = none ∧ terminalLastB s.events = true
  val_bound : ∀ d, s.pendingVal = some d →
    d < s.nextTick + (s.totalBatches - s.currentBatch) * 120000

theorem chain_extend {s : SimState} (hInv : SimInv s) (x : SimEvent)
    (hx : pairLeB (s.epoch, s.currentBatch) (x.epoch, x.batch) = true) :
    chainB pairLeB (pairsOf (s.events ++ [x])) = true := by
  rw [pairsOf_concat]
  apply chainB_concat _ _ _ hInv.chain_ok
  intro a ha
  rw [pairsOf_getLast?] at ha
  rcases Option.map_eq_some'.mp ha with ⟨e, he, hea⟩
  subst hea
  exact pairLeB_trans (hInv.last_le e he) hx

theorem inv_valFire {s : SimState} (h : SimInv s) (hact : s.intervalActive = true) :
    SimInv (valFire s) := by
  refine ⟨?_, ?_, ?_, ?_, ?_, ?_⟩
  · exact chain_extend h _ (pairLeB_refl _)
  · intro e he
    simp only [valFire, List.getLast?_concat, Option.some.injEq] at he
    subst he
    exact pairLeB_refl _
  · exact h.batch_le
  · intro _
    refine ⟨noTerminalB_concat _ _ (h.active_noterm hact).1 rfl,
      fun hcon => TStatus.noConfusion hcon, fun hcon => TStatus.noConfusion hcon⟩
  · intro h0
    simp only [valFire] at h0
    rw [hact] at h0
    cases h0
  · intro d hd
    cases hd

theorem inv_tickFire {s : SimState} (h : SimInv s) (hact : s.intervalActive = true)
    (hpv : ∀ d, s.pendingVal = some d → s.nextTick < d) :
    SimInv (tickFire s) := by
  unfold tickFire
  by_cases hb : s.currentBatch < s.totalBatches
  · rw [if_pos hb]
    refine ⟨?_, ?_, ?_, ?_, ?_, ?_⟩
    · exact chain_extend h _ (by rw [pairLeB_iff]; dsimp only; omega)
    · intro e he
      simp only [List.getLast?_concat, Option.some.injEq] at he
      subst he
      exact pairLeB_refl _
    · dsimp only
      omega
    · intro _
      have hn := h.active_noterm hact
      refine ⟨noTerminalB_concat _ _ hn.1 ?_, hn.2.1, hn.2.2⟩
      simp only [isTerminalEv, Bool.or_eq_false_iff, beq_eq_false_iff_ne, ne_eq]
      exact ⟨hn.2.1, hn.2.2⟩
    · intro h0
      rw [hact] at h0
      cases h0
    · intro d hd
      have := h.val_bound d hd
      dsimp only
      omega
  · rw [if_neg hb]
    have hbe : s.currentBatch = s.totalBatches := by
      have := h.batch_le
      omega
    have hnone : s.pendingVal = none := by
      cases hq : s.pendingVal with
      | none => rfl
      | some d =>
        have h1 := h.val_bound d hq
        have h2 := hpv d hq
        rw [hbe] at h1
        simp at h1
        omega
    by_cases he : s.epoch + 1 ≥ s.totalEpochs
    · rw [if_pos he]
      refine ⟨?_, ?_, ?_, ?_, ?_, ?_⟩
      · exact chain_extend h _ (by rw [pairLeB_iff]; dsimp only; omega)
      · intro e hee
        simp only [List.getLast?_concat, Option.some.injEq] at hee
        subst hee
        exact pairLeB_refl _
      · exact Nat.zero_le _
      · intro h0
        cases h0
      · intro _
        refine ⟨hnone, ?_⟩
        simp only [terminalLastB, List.dropLast_concat]
        exact (h.active_noterm hact).1
      · intro d hd
        rw [hnone] at hd
        cases hd
    · rw [if_neg he]
      refine ⟨?_, ?_, ?_, ?_, ?_, ?_⟩
      · exact chain_extend h _ (by rw [pairLeB_iff]; dsimp only; omega)
      · intro e hee
        simp only [List.getLast?_concat, Option.some.injEq] at hee
        subst hee
        exact pairLeB_refl _
      · exact Nat.zero_le _
      · intro _
        refine ⟨noTerminalB_concat _ _ (h.active_noterm hact).1 rfl,
          fun hcon => TStatus.noConfusion hcon, fun hcon => TStatus.noConfusion hcon⟩
      · intro h0
        rw [hact] at h0
        cases h0
      · intro d hd
        simp only [Option.some.injEq] at hd
        subst hd
        unfold valDelay
        dsimp only
        omega

theorem inv_simStep {s : SimState} (h : SimInv s) : SimInv (simStep s) := by
  cases hq : s.pendingVal with
  | none =>
    simp only [simStep, hq]
    by_cases hact : s.intervalActive = true
    · rw [if_pos hact]
      exact inv_tickFire h hact (fun d hd => by rw [hq] at hd; cases hd)
    · rw [if_neg hact]
      exact h
  | some d =>
    simp only [simStep, hq]
    by_cases hc : s.intervalActive = true ∧ s.nextTick < d
    · have hcond : (s.intervalActive && decide (s.nextTick < d)) = true := by
        simp [hc.1, hc.2]
      rw [if_pos hcond]
      refine inv_tickFire h hc.1 (fun d2 hd2 => ?_)
      rw [hq] at hd2
      cases hd2
      exact hc.2
    · have hcond : ¬((s.intervalActive && decide (s.nextTick < d)) = true) := by
        simp only [Bool.and_eq_true, decide_eq_true_eq]
        exact hc
      rw [if_neg hcond]
      have hact : s.intervalActive = true := by
        cases hv : s.intervalActive
        · have h2 := (h.inactive hv).1
          rw [hq] at h2
          cases h2
        · rfl
      exact inv_valFire h hact

theorem inv_simRun (n : Nat) (s : SimState) (h : SimInv s) : SimInv (simRun s n) := by
  induction n generalizing s with
  | zero => exact h
  | succ k ih => exact ih (simStep s) (inv_simStep h)

theorem inv_simStart (E B : Nat) : SimInv (simStart E B) := by
  refine ⟨rfl, ?_, Nat.zero_le _, ?_, ?_, ?_⟩
  · intro e he
    have h2 : some (⟨SimEvKind.update, TStatus.training, 0, 0⟩ : SimEvent) = some e := he
    cases h2
    exact pairLeB_refl (0, 0)
  · intro _
    exact ⟨rfl, fun hcon => TStatus.noConfusion hcon, fun hcon => TStatus.noConfusion hcon⟩
  · intro h0
    cases h0
  · intro d hd
    cases hd

/-! ## Claim C2 -/

/-- Claim C2 (amended): for every uninterrupted run of a single simulated
job (any totals, any number of scheduler steps), the (epoch, batch) pairs
of the emitted events are non-decreasing in lexicographic order — not
strictly increasing, since the `validating` event and the later resume
event carry the same pair — and any event with status `completed` or
`failed` is the last event emitted. -/
theorem simulateTraining_events_monotone (E B fuel : Nat) :
    chainB pairLeB (pairsOf (simRun (simStart E B) fuel).events) = true ∧
    terminalLastB (simRun (simStart E B) fuel).events = true := by
  have h := inv_simRun fuel (simStart E B) (inv_simStart E B)
  refine ⟨h.chain_ok, ?_⟩
  cases hact : (simRun (simStart E B) fuel).intervalActive with
  | false => exact (h.inactive hact).2
  | true => exact noTerminalB_dropLast _ (h.active_noterm hact).1

/-- Claim C2 is false as stated: with 2 epochs and 1 batch per epoch the
uninterrupted run emits the pair (1,0) twice (the `validating` event and
the resume event 5 seconds later), so the pairs are not strictly
increasing; and stopping the job during the validation settle window emits
the `failed` event and is then followed by the still-pending resume event,
so a `failed` event need not be last. -/
theorem simulateTraining_not_strictly_increasing :
    (pairsOf (simRun (simStart 2 1) 5).events =
        [(0, 0), (0, 1), (1, 0), (1, 0), (1, 1), (2, 0)]
      ∧ chainB pairLtB (pairsOf (simRun (simStart 2 1) 5).events) = false)
    ∧ ((simStep (stopSim (simRun (simStart 2 1) 2))).events.any
          (fun e => e.status == TStatus.failed) = true
      ∧ terminalLastB (simStep (stopSim (simRun (simStart 2 1) 2))).events = false) := by
  decide

/-! ## The WebSocket service (websocket.ts)

A registered connection (`ConnectedClient`): transport handle, id,
subscription set and last-liveness timestamp.  The transport handle is
modelled by its two observable behaviours: whether `readyState` equals
`WebSocket.OPEN`, and whether a `send` on it succeeds (a throwing `send`
is caught by the broadcast loop).  The registry `clients` is a JS `Map`
keyed by `client.id` iterated in insertion order; it is modelled as a list
with unique-key update. -/

structure WSClient where
  id : String
  isOpen : Bool
  sendOk : Bool
  subs : List String
  lastPing : Nat
  deriving DecidableEq, Repr

/-- The server-to-client message envelope (`WebSocketMessage`). -/
structure WSMessage where
  type : String
  data : String
  timestamp : String
  deriving DecidableEq, Repr

/-- JS `Map.set`: replace in place when the key exists, else append. -/
def mapSet : List WSClient → WSClient → List WSClient
  | [], c => [c]
  | a :: as, c => if a.id = c.id then c :: as else a :: mapSet as c

/-- The ids of the registered clients, in registry order. -/
def idsOf (cs : List WSClient) : List String := cs.map (fun c => c.id)

/-- The topic filter inside `broadcast`:
`!channel || subscriptions.has(channel) || subscriptions.has('all')`. -/
def matchesChannel (c : WSClient) (channel : Option String) : Bool :=
  match channel with
  | none => true
  | some ch => c.subs.contains ch || c.subs.contains "all"

/-- What `broadcast` produces: the per-client sends that succeeded (in
registry order), the `sentCount` counter, and the function's return value.
The TypeScript `broadcast` body contains no return statement, so its
return value is `undefined`, modelled as `none`. -/
structure BroadcastResult where
  sent : List (String × WSMessage)
  sentCount : Nat
  returnValue : Option Nat
  deriving DecidableEq, Repr

/-- The `clients.forEach` loop of `broadcast`: a client receives the
message when its transport is open, the channel filter matches, and the
`send` call does not throw (a throw is caught, logged and skipped). -/
def broadcastLoop (message : WSMessage) (channel : Option String) :
    List WSClient → List (String × WSMessage) × Nat
  | [] => ([], 0)
  | c :: cs =>
    let r := broadcastLoop message channel cs
    if c.isOpen then
      if matchesChannel c channel then
        if c.sendOk then ((c.id, message) :: r.1, r.2 + 1) else r
      else r
    else r

/-- `WebSocketService.broadcast(type, data, channel?)`. -/
def broadcast (cs : List WSClient) (msgType payload timestamp : String)
    (channel : Option String) : BroadcastResult :=
  let message : WSMessage := ⟨msgType, payload, timestamp⟩
  let r := broadcastLoop message channel cs
  ⟨r.1, r.2, none⟩

/-- `WebSocketService.generateClientId`, as a function of the observed
`Date.now()` value and the observed `Math.random().toString(36).substring(7)`
suffix.  No check against currently registered ids is performed. -/
def generateClientId (now : Nat) (suffix : String) : String :=
  "client_" ++ toString now ++ "_" ++ suffix

/-- The connection handler in `WebSocketService.initialize`: generate an
id, create the client with empty subscription set and liveness = now, and
`Map.set` it into the registry.  Returns the assigned id and the new
registry. -/
def register (cs : List WSClient) (now : Nat) (suffix : String)
    (isOpen sendOk : Bool) : String × List WSClient :=
  let clientId := generateClientId now suffix
  (clientId, mapSet cs ⟨clientId, isOpen, sendOk, [], now⟩)

/-- Result of one heartbeat tick: the surviving registry, the ids whose
transports were terminated, and the ids that were sent a ping. -/
structure HBResult where
  remaining : List WSClient
  terminated : List String
  pinged : List String
  deriving DecidableEq, Repr

/-- The `setInterval` callback of `startHeartbeat`: for each client, if the
transport is open and the last liveness signal is more than 30000 ms old,
terminate the transport and delete the client; if open and fresh, send a
ping; if not open, delete the client. -/
def heartbeatTick (now : Nat) : List WSClient → HBResult
  | [] => ⟨[], [], []⟩
  | c :: cs =>
    let r := heartbeatTick now cs
    if c.isOpen then
      if now - c.lastPing > 30000 then
        ⟨r.remaining, c.id :: r.terminated, r.pinged⟩
      else
        ⟨c :: r.remaining, r.terminated, c.id :: r.pinged⟩
    else
      ⟨r.remaining, r.terminated, r.pinged⟩

/-! ## Broadcast lemmas -/

theorem broadcastLoop_count_eq_length (m : WSMessage) (ch : Option String)
    (cs : List WSClient) :
    (broadcastLoop m ch cs).2 = (broadcastLoop m ch cs).1.length := by
  induction cs with
  | nil => rfl
  | cons c cs ih =>
    simp only [broadcastLoop]
    by_cases ho : c.isOpen <;> by_cases hm : matchesChannel c ch <;>
      by_cases hs : c.sendOk <;> simp [ho, hm, hs, ih]

theorem broadcastLoop_no_match (m : WSMessage) (ch : Option String)
    (cs : List WSClient) (h : ∀ c ∈ cs, matchesChannel c ch = false) :
    broadcastLoop m ch cs = ([], 0) := by
  induction cs with
  | nil => rfl
  | cons c cs ih =>
    have hc := h c (List.mem_cons_self c cs)
    have ih2 := ih (fun c2 hc2 => h c2 (List.mem_cons_of_mem c hc2))
    simp only [broadcastLoop, ih2, hc]
    by_cases ho : c.isOpen <;> simp [ho]

theorem broadcastLoop_sent_ids_mem (m : WSMessage) (ch : Option String)
    (cs : List WSClient) (x : String × WSMessage)
    (hx : x ∈ (broadcastLoop m ch cs).1) : x.1 ∈ idsOf cs := by
  induction cs with
  | nil => cases hx
  | cons c cs ih =>
    simp only [broadcastLoop] at hx
    by_cases ho : c.isOpen <;> by_cases hm : matchesChannel c ch <;>
        by_cases hs : c.sendOk <;>
        simp only [ho, hm, hs, if_true, if_false, Bool.false_eq_true] at hx
    all_goals
      first
      | (rcases List.mem_cons.mp hx with h1 | h1
         · rw [h1]
           exact List.mem_cons_self _ _
         · exact List.mem_cons_of_mem _ (ih h1))
      | exact List.mem_cons_of_mem _ (ih hx)

/-! ## Claim C1 -/

/-- Claim C1 is false as stated: at the spec's own scenario — a broadcast
of type `alert` on topic `alerts` with no connection subscribed — the
TypeScript function body contains no return statement, so the call
evaluates to `undefined` rather than to the delivered count 0. -/
theorem broadcast_does_not_return_count :
    (broadcast [⟨"c3", true, true, [], 0⟩] "alert" "msg-test" "ts"
        (some "alerts")).sentCount = 0
    ∧ (broadcast [⟨"c3", true, true, [], 0⟩] "alert" "msg-test" "ts"
        (some "alerts")).returnValue ≠
      some ((broadcast [⟨"c3", true, true, [], 0⟩] "alert" "msg-test" "ts"
        (some "alerts")).sentCount) := by
  decide

/-- Claim C1 (amended): `broadcast` never raises (per-connection send
failures are caught inside the loop); it computes and logs a
`sentCount` equal to the number of successful deliveries, which is 0
whenever no registered connection matches the topic; but the function
itself returns `undefined`, not the count. -/
theorem broadcast_count_on_no_match (cs : List WSClient)
    (msgType payload timestamp : String) (ch : Option String)
    (h : ∀ c ∈ cs, matchesChannel c ch = false) :
    (broadcast cs msgType payload timestamp ch).sentCount = 0
    ∧ (broadcast cs msgType payload timestamp ch).sent = []
    ∧ (broadcast cs msgType payload timestamp ch).returnValue = none
    ∧ ∀ (cs2 : List WSClient) (ch2 : Option String),
        (broadcast cs2 msgType payload timestamp ch2).sentCount =
          (broadcast cs2 msgType payload timestamp ch2).sent.length := by
  have h0 := broadcastLoop_no_match ⟨msgType, payload, timestamp⟩ ch cs h
  refine ⟨?_, ?_, rfl, ?_⟩
  · simp [broadcast, h0]
  · simp [broadcast, h0]
  · intro cs2 ch2
    exact broadcastLoop_count_eq_length _ _ _

/-- Witness for C1 (amended) at the spec's Scenario C input. -/
theorem broadcast_count_on_no_match_witness :
    (broadcast [⟨"c3", true, true, [], 0⟩] "alert" "msg-test" "ts"
        (some "alerts")).sentCount = 0
    ∧ (broadcast [⟨"c3", true, true, [], 0⟩] "alert" "msg-test" "ts"
        (some "alerts")).sent = []
    ∧ (broadcast [⟨"c3", true, true, [], 0⟩] "alert" "msg-test" "ts"
        (some "alerts")).returnValue = none
    ∧ ∀ (cs2 : List WSClient) (ch2 : Option String),
        (broadcast cs2 "alert" "msg-test" "ts" ch2).sentCount =
          (broadcast cs2 "alert" "msg-test" "ts" ch2).sent.length :=
  broadcast_count_on_no_match _ "alert" "msg-test" "ts" (some "alerts")
    (by decide)

/-! ## Claim C4 -/

theorem broadcastLoop_id_not_mem (m : WSMessage) (ch : Option String)
    (as : List WSClient) (i : String) (hna : i ∉ idsOf as) :
    i ∉ (broadcastLoop m ch as).1.map Prod.fst := by
  intro hmem
  rcases List.mem_map.mp hmem with ⟨x, hx, hxi⟩
  exact hna (hxi ▸ broadcastLoop_sent_ids_mem m ch as x hx)

theorem broadcastLoop_mem_iff (m : WSMessage) (ch : Option String)
    (cs : List WSClient) (c : WSClient) (hc : c ∈ cs)
    (hnd : (idsOf cs).Nodup) :
    c.id ∈ (broadcastLoop m ch cs).1.map Prod.fst ↔
      (c.isOpen = true ∧ c.sendOk = true ∧ matchesChannel c ch = true) := by
  induction cs with
  | nil => cases hc
  | cons a as ih =>
    have hnd0 : a.id ∉ idsOf as ∧ (idsOf as).Nodup := by
      simpa [idsOf] using hnd
    rcases List.mem_cons.mp hc with hca | hca
    · subst hca
      have hnotmem := broadcastLoop_id_not_mem m ch as c.id hnd0.1
      by_cases ho : c.isOpen <;> by_cases hm : matchesChannel c ch <;>
        by_cases hs : c.sendOk <;>
        simp [broadcastLoop, ho, hm, hs, hnotmem]
    · have hcid : c.id ≠ a.id := by
        intro he
        exact hnd0.1 (he ▸ List.mem_map.mpr ⟨c, hca, rfl⟩)
      have ih2 := ih hca hnd0.2
      by_cases ho : a.isOpen <;> by_cases hm : matchesChannel a ch <;>
        by_cases hs : a.sendOk <;>
        simp only [broadcastLoop, ho, hm, hs, if_true, if_false,
          Bool.false_eq_true, List.map_cons, List.mem_cons] <;>
        simp [hcid, ih2]

/-- Claim C4 is false as stated: a registered connection subscribed to the
topic is not delivered to when its transport is not open (client c1
below), nor when its send throws (client c2 below), so subscription-match
alone is not equivalent to delivery. -/
theorem broadcast_filter_not_sufficient :
    matchesChannel ⟨"c1", false, true, ["x"], 0⟩ (some "x") = true
    ∧ matchesChannel ⟨"c2", true, false, ["x"], 0⟩ (some "x") = true
    ∧ (broadcast [⟨"c1", false, true, ["x"], 0⟩, ⟨"c2", true, false, ["x"], 0⟩]
        "t" "d" "ts" (some "x")).sent = [] := by
  decide

/-- Claim C4 (amended): a broadcast event is delivered to a registered
connection if and only if the connection's transport is open, its send
succeeds, and the topic filter matches (topic unset, or the subscriptions
contain the topic or the reserved wildcard topic `all`).  In particular,
for open connections with working sends subscribed to x / all / nothing,
a broadcast on topic x delivers exactly to the first two. -/
theorem broadcast_delivers_iff (cs : List WSClient)
    (msgType payload timestamp : String) (ch : Option String) (c : WSClient)
    (hc : c ∈ cs) (hnd : (idsOf cs).Nodup) :
    c.id ∈ (broadcast cs msgType payload timestamp ch).sent.map Prod.fst ↔
      (c.isOpen = true ∧ c.sendOk = true ∧ matchesChannel c ch = true) :=
  broadcastLoop_mem_iff ⟨msgType, payload, timestamp⟩ ch cs c hc hnd

/-- Witness for C4 (amended): the three-connection instance of the claim.
Delivery goes exactly to c1 (subscribed to x) and c2 (subscribed to the
wildcard all), not to c3 (no subscriptions). -/
theorem broadcast_delivers_iff_witness :
    (broadcast [⟨"c1", true, true, ["x"], 0⟩, ⟨"c2", true, true, ["all"], 0⟩,
        ⟨"c3", true, true, [], 0⟩] "t" "d" "ts" (some "x")).sent.map Prod.fst =
      ["c1", "c2"]
    ∧ ((⟨"c1", true, true, ["x"], 0⟩ : WSClient).id ∈
        (broadcast [⟨"c1", true, true, ["x"], 0⟩, ⟨"c2", true, true, ["all"], 0⟩,
          ⟨"c3", true, true, [], 0⟩] "t" "d" "ts" (some "x")).sent.map Prod.fst ↔
        ((⟨"c1", true, true, ["x"], 0⟩ : WSClient).isOpen = true
          ∧ (⟨"c1", true, true, ["x"], 0⟩ : WSClient).sendOk = true
          ∧ matchesChannel ⟨"c1", true, true, ["x"], 0⟩ (some "x") = true)) :=
  ⟨by decide,
   broadcast_delivers_iff _ "t" "d" "ts" (some "x") _ (by decide) (by decide)⟩

/-! ## Claim C6 -/

theorem heartbeatTick_remaining_sound (now : Nat) (cs : List WSClient)
    (c : WSClient) (h : c ∈ (heartbeatTick now cs).remaining) :
    c ∈ cs ∧ c.isOpen = true ∧ now - c.lastPing ≤ 30000 := by
  induction cs with
  | nil => cases h
  | cons a as ih =>
    by_cases ho : a.isOpen <;> by_cases hs : now - a.lastPing > 30000 <;>
      simp only [heartbeatTick, ho, hs, if_true, if_false,
        Bool.false_eq_true] at h
    · rcases ih h with ⟨h1, h2, h3⟩
      exact ⟨List.mem_cons_of_mem a h1, h2, h3⟩
    · rcases List.mem_cons.mp h with h1 | h1
      · subst h1
        exact ⟨List.mem_cons_self _ _, ho, by omega⟩
      · rcases ih h1 with ⟨h1, h2, h3⟩
        exact ⟨List.mem_cons_of_mem a h1, h2, h3⟩
    all_goals
      rcases ih h with ⟨h1, h2, h3⟩
      exact ⟨List.mem_cons_of_mem a h1, h2, h3⟩

theorem heartbeatTick_remaining_complete (now : Nat) (cs : List WSClient)
    (c : WSClient) (hc : c ∈ cs) (ho : c.isOpen = true)
    (hf : now - c.lastPing ≤ 30000) :
    c ∈ (heartbeatTick now cs).remaining := by
  induction cs with
  | nil => cases hc
  | cons a as ih =>
    rcases List.mem_cons.mp hc with h1 | h1
    · subst h1
      simp only [heartbeatTick, ho, if_true]
      rw [if_neg (by omega)]
      exact List.mem_cons_self _ _
    · by_cases hao : a.isOpen <;> by_cases has : now - a.lastPing > 30000 <;>
        simp only [heartbeatTick, hao, has, if_true, if_false,
          Bool.false_eq_true] <;>
      first
      | exact List.mem_cons_of_mem a (ih h1)
      | exact ih h1

theorem heartbeatTick_terminated (now : Nat) (cs : List WSClient)
    (c : WSClient) (hc : c ∈ cs) (ho : c.isOpen = true)
    (hs : now - c.lastPing > 30000) :
    c.id ∈ (heartbeatTick now cs).terminated := by
  induction cs with
  | nil => cases hc
  | cons a as ih =>
    rcases List.mem_cons.mp hc with h1 | h1
    · subst h1
      simp only [heartbeatTick, ho, if_true]
      rw [if_pos hs]
      exact List.mem_cons_self _ _
    · by_cases hao : a.isOpen <;> by_cases has : now - a.lastPing > 30000 <;>
        simp only [heartbeatTick, hao, has, if_true, if_false,
          Bool.false_eq_true] <;>
      first
      | exact List.mem_cons_of_mem _ (ih h1)
      | exact ih h1

theorem heartbeatTick_pinged (now : Nat) (cs : List WSClient)
    (c : WSClient) (hc : c ∈ cs) (ho : c.isOpen = true)
    (hf : now - c.lastPing ≤ 30000) :
    c.id ∈ (heartbeatTick now cs).pinged := by
  induction cs with
  | nil => cases hc
  | cons a as ih =>
    rcases List.mem_cons.mp hc with h1 | h1
    · subst h1
      simp only [heartbeatTick, ho, if_true]
      rw [if_neg (by omega)]
      exact List.mem_cons_self _ _
    · by_cases hao : a.isOpen <;> by_cases has : now - a.lastPing > 30000 <;>
        simp only [heartbeatTick, hao, has, if_true, if_false,
          Bool.false_eq_true] <;>
      first
      | exact List.mem_cons_of_mem _ (ih h1)
      | exact ih h1

/-- Claim C6: on a heartbeat tick, a registered connection whose transport
is not open is removed; an open connection whose last liveness signal is
more than 30000 ms old has its transport terminated and is removed from
the registry; any other open connection is kept and sent a ping.  In
particular a connection with no liveness signal for more than 30 seconds
is gone after the tick. -/
theorem heartbeatTick_spec (now : Nat) (cs : List WSClient) (c : WSClient)
    (hc : c ∈ cs) :
    (c ∈ (heartbeatTick now cs).remaining ↔
      (c.isOpen = true ∧ now - c.lastPing ≤ 30000))
    ∧ (c.isOpen = false → c ∉ (heartbeatTick now cs).remaining)
    ∧ (c.isOpen = true → now - c.lastPing > 30000 →
        c.id ∈ (heartbeatTick now cs).terminated
        ∧ c ∉ (heartbeatTick now cs).remaining)
    ∧ (c.isOpen = true → now - c.lastPing ≤ 30000 →
        c.id ∈ (heartbeatTick now cs).pinged) := by
  refine ⟨⟨fun h => ⟨(heartbeatTick_remaining_sound now cs c h).2.1,
      (heartbeatTick_remaining_sound now cs c h).2.2⟩,
    fun h => heartbeatTick_remaining_complete now cs c hc h.1 h.2⟩, ?_, ?_, ?_⟩
  · intro ho hmem
    have h2 := (heartbeatTick_remaining_sound now cs c hmem).2.1
    rw [ho] at h2
    cases h2
  · intro ho hs
    refine ⟨heartbeatTick_terminated now cs c hc ho hs, fun hmem => ?_⟩
    have h3 := (heartbeatTick_remaining_sound now cs c hmem).2.2
    omega
  · exact heartbeatTick_pinged now cs c hc

/-- Witness for C6: a single stale open connection (no liveness signal for
40 seconds) is terminated and removed by the tick. -/
theorem heartbeatTick_spec_witness :
    ((⟨"c1", true, true, [], 0⟩ : WSClient) ∈
        (heartbeatTick 40000 [⟨"c1", true, true, [], 0⟩]).remaining ↔
      ((⟨"c1", true, true, [], 0⟩ : WSClient).isOpen = true
        ∧ 40000 - (⟨"c1", true, true, [], 0⟩ : WSClient).lastPing ≤ 30000))
    ∧ ((⟨"c1", true, true, [], 0⟩ : WSClient).isOpen = false →
        (⟨"c1", true, true, [], 0⟩ : WSClient) ∉
          (heartbeatTick 40000 [⟨"c1", true, true, [], 0⟩]).remaining)
    ∧ ((⟨"c1", true, true, [], 0⟩ : WSClient).isOpen = true →
        40000 - (⟨"c1", true, true, [], 0⟩ : WSClient).lastPing > 30000 →
        (⟨"c1", true, true, [], 0⟩ : WSClient).id ∈
          (heartbeatTick 40000 [⟨"c1", true, true, [], 0⟩]).terminated
        ∧ (⟨"c1", true, true, [], 0⟩ : WSClient) ∉
          (heartbeatTick 40000 [⟨"c1", true, true, [], 0⟩]).remaining)
    ∧ ((⟨"c1", true, true, [], 0⟩ : WSClient).isOpen = true →
        40000 - (⟨"c1", true, true, [], 0⟩ : WSClient).lastPing ≤ 30000 →
        (⟨"c1", true, true, [], 0⟩ : WSClient).id ∈
          (heartbeatTick 40000 [⟨"c1", true, true, [], 0⟩]).pinged) :=
  heartbeatTick_spec 40000 [⟨"c1", true, true, [], 0⟩] ⟨"c1", true, true, [], 0⟩
    (by decide)

/-! ## Claim C8 -/

theorem idsOf_mapSet_subset (cs : List WSClient) (c : WSClient) (i : String)
    (hi : i ∈ idsOf (mapSet cs c)) : i = c.id ∨ i ∈ idsOf cs := by
  induction cs with
  | nil =>
    simp only [mapSet, idsOf, List.map_cons, List.map_nil] at hi
    rcases List.mem_cons.mp hi with h1 | h1
    · exact Or.inl h1
    · cases h1
  | cons a as ih =>
    by_cases ha : a.id = c.id <;>
      simp only [mapSet, ha, if_true, if_false, idsOf, List.map_cons,
        List.mem_cons] at hi ⊢
    · rcases hi with h1 | h1
      · exact Or.inl h1
      · exact Or.inr (Or.inr h1)
    · rcases hi with h1 | h1
      · exact Or.inr (Or.inl h1)
      · rcases ih h1 with h2 | h2
        · exact Or.inl h2
        · exact Or.inr (Or.inr h2)

theorem idsOf_mapSet_nodup (cs : List WSClient) (c : WSClient)
    (hnd : (idsOf cs).Nodup) : (idsOf (mapSet cs c)).Nodup := by
  induction cs with
  | nil => simp [mapSet, idsOf]
  | cons a as ih =>
    have hnd0 : a.id ∉ idsOf as ∧ (idsOf as).Nodup := by
      simpa [idsOf] using hnd
    by_cases ha : a.id = c.id <;>
      simp only [mapSet, ha, if_true, if_false]
    · refine List.nodup_cons.mpr ⟨?_, hnd0.2⟩
      show c.id ∉ idsOf as
      rw [← ha]
      exact hnd0.1
    · refine List.nodup_cons.mpr ⟨?_, ih hnd0.2⟩
      intro hmem
      rcases idsOf_mapSet_subset as c a.id hmem with h1 | h1
      · exact ha h1
      · exact hnd0.1 h1

theorem mapSet_length_of_mem (cs : List WSClient) (c : WSClient)
    (h : c.id ∈ idsOf cs) : (mapSet cs c).length = cs.length := by
  induction cs with
  | nil => cases h
  | cons a as ih =>
    by_cases ha : a.id = c.id
    · simp [mapSet, ha]
    · simp only [mapSet, ha, if_false, List.length_cons]
      simp only [idsOf, List.map_cons, List.mem_cons] at h
      rcases h with h1 | h1
      · exact absurd h1.symm ha
      · rw [ih h1]

theorem mapSet_length_of_not_mem (cs : List WSClient) (c : WSClient)
    (h : c.id ∉ idsOf cs) : (mapSet cs c).length = cs.length + 1 := by
  induction cs with
  | nil => rfl
  | cons a as ih =>
    have h2 : a.id ≠ c.id ∧ c.id ∉ idsOf as := by
      constructor
      · intro he
        exact h (by rw [← he]; exact List.mem_cons_self _ _)
      · intro hm
        exact h (List.mem_cons_of_mem _ hm)
    simp only [mapSet, h2.1, if_false, List.length_cons, ih h2.2]

/-- Claim C8 is false as stated: `generateClientId` performs no check
against the registered ids, so two connections accepted at the same
`Date.now()` millisecond with the same random suffix receive the same id;
the second `Map.set` then overwrites the first entry (registry stays at
size 1) even though that id is currently registered. -/
theorem register_id_collision :
    (register (register [] 1000 "ab" true true).2 1000 "ab" true true).1 =
      (register [] 1000 "ab" true true).1
    ∧ (register (register [] 1000 "ab" true true).2 1000 "ab" true true).1 ∈
      idsOf (register [] 1000 "ab" true true).2
    ∧ (register (register [] 1000 "ab" true true).2 1000 "ab" true true).2.length = 1 := by
  refine ⟨rfl, ?_, ?_⟩ <;> decide

/-- Claim C8 (amended): the registry, being keyed by id, never holds two
entries with the same id (`Map.set` overwrites), so the id assigned by
`register` is fresh exactly when the generated
`client_(timestamp)_(suffix)` string differs from every currently
registered id; when it coincides with a registered id the existing entry
is overwritten instead (same registry size), so freshness is only
probabilistic, not guaranteed. -/
theorem register_unique_ids (cs : List WSClient) (now : Nat) (suffix : String)
    (isOpen sendOk : Bool) (hnd : (idsOf cs).Nodup) :
    (register cs now suffix isOpen sendOk).1 = generateClientId now suffix
    ∧ (idsOf (register cs now suffix isOpen sendOk).2).Nodup
    ∧ (generateClientId now suffix ∈ idsOf cs →
        (register cs now suffix isOpen sendOk).2.length = cs.length)
    ∧ (generateClientId now suffix ∉ idsOf cs →
        (register cs now suffix isOpen sendOk).2.length = cs.length + 1) := by
  refine ⟨rfl, idsOf_mapSet_nodup cs _ hnd, ?_, ?_⟩
  · intro h
    exact mapSet_length_of_mem cs _ h
  · intro h
    exact mapSet_length_of_not_mem cs _ h

/-- Witness for C8 (amended): registering on an empty registry with a
fresh generated id grows the registry to one entry with distinct ids. -/
theorem register_unique_ids_witness :
    (register [] 7 "zz" true true).1 = generateClientId 7 "zz"
    ∧ (idsOf (register [] 7 "zz" true true).2).Nodup
    ∧ (generateClientId 7 "zz" ∈ idsOf [] →
        (register [] 7 "zz" true true).2.length = 0)
    ∧ (generateClientId 7 "zz" ∉ idsOf [] →
        (register [] 7 "zz" true true).2.length = 1) :=
  register_unique_ids [] 7 "zz" true true (by decide)

/-! ## Metric curve generators (ai-training.ts)

`generateLoss` and `generateAccuracy` compute JS floating-point formulas
from the fractional progress and the model type; the single
`Math.random()` draw of each call is passed as the explicit parameter
`rand` (a value in [0, 1)).  The formulas are modelled over the real
numbers. -/

noncomputable def generateLoss (progress : ℝ) (modelType : String)
    (rand : ℝ) : ℝ :=
  let baseDecay := Real.exp (-progress * 3)
  let noise := (rand - 0.5) * 0.1
  if modelType = "CNN" then 2.5 * baseDecay + 0.1 + noise
  else if modelType = "LSTM" then 3.0 * baseDecay + 0.15 + noise
  else if modelType = "Transformer" then 2.8 * baseDecay + 0.12 + noise
  else 2.5 * baseDecay + 0.1 + noise

noncomputable def generateAccuracy (progress : ℝ) (modelType : String)
    (rand : ℝ) : ℝ :=
  let baseGrowth := 1 - Real.exp (-progress * 2.5)
  let noise := (rand - 0.5) * 0.02
  if modelType = "CNN" then min 0.95 (0.3 + 0.65 * baseGrowth + noise)
  else if modelType = "LSTM" then min 0.92 (0.25 + 0.67 * baseGrowth + noise)
  else if modelType = "Transformer" then min 0.88 (0.2 + 0.68 * baseGrowth + noise)
  else min 0.95 (0.3 + 0.65 * baseGrowth + noise)

/-! ## Claim C7 -/

/-- Claim C7: for model type CNN, any progress in [0, 1] and any noise
draw in the uniform range of the source (`Math.random()` in [0, 1), so
noise in [-0.05, 0.05) for the loss and [-0.01, 0.01) for the accuracy),
the generated accuracy never exceeds 0.95 and the generated loss is at
least 0.05 (= floor 0.1 minus maximal negative noise 0.05). -/
theorem cnn_curves_bounded (progress rand : ℝ) (_hp0 : 0 ≤ progress)
    (_hp1 : progress ≤ 1) (hr0 : 0 ≤ rand) (_hr1 : rand < 1) :
    generateAccuracy progress "CNN" rand ≤ 0.95
    ∧ 0.05 ≤ generateLoss progress "CNN" rand := by
  constructor
  · have ha : generateAccuracy progress "CNN" rand =
        min 0.95 (0.3 + 0.65 * (1 - Real.exp (-progress * 2.5))
          + (rand - 0.5) * 0.02) := rfl
    rw [ha]
    exact min_le_left _ _
  · have hl : generateLoss progress "CNN" rand =
        2.5 * Real.exp (-progress * 3) + 0.1 + (rand - 0.5) * 0.1 := rfl
    rw [hl]
    have hexp : 0 < Real.exp (-progress * 3) := Real.exp_pos _
    nlinarith

/-- Witness for C7 at progress 0 with the most negative noise draw. -/
theorem cnn_curves_bounded_witness :
    generateAccuracy 0 "CNN" 0 ≤ 0.95 ∧ (0.05 : ℝ) ≤ generateLoss 0 "CNN" 0 :=
  cnn_curves_bounded 0 0 (by norm_num) (by norm_num) (by norm_num) (by norm_num)

/-! ## The persisted model record (shared schema `AiModel`)

Only the fields the training service reads or writes are relevant; the
parameters object mirrors what `startTraining` stores. -/

structure ModelParams where
  architecture : String
  epochs : Nat
  batchSize : Nat
  learningRate : ℝ
  optimizer : String

structure AiModel where
  id : String
  name : String
  type : String
  version : String
  accuracy : ℝ
  precision : ℝ
  /-- The source field `recall` (that word is a Lean command, so it is
  named `recallVal` here). -/
  recallVal : ℝ
  f1Score : ℝ
  trainingData : String
  isActive : Bool
  parameters : ModelParams

/-- The partial-update object passed to `storage.updateAiModel` by
`finalizeModel`: exactly the fields accuracy, precision, recall, f1Score
and isActive. -/
structure AiModelUpdate where
  accuracy : ℝ
  precision : ℝ
  /-- The source field `recall`. -/
  recallVal : ℝ
  f1Score : ℝ
  isActive : Bool

/-- `AITrainingService.finalizeModel`: derive the final metrics from the
last training accuracy and two `Math.random()` draws, and build the
partial update that is persisted. -/
noncomputable def finalizeModel (finalAccuracy r1 r2 : ℝ) : AiModelUpdate :=
  let finalPrecision := finalAccuracy * (0.95 + r1 * 0.05)
  let finalRecall := finalAccuracy * (0.93 + r2 * 0.07)
  let finalF1 := 2 * (finalPrecision * finalRecall) / (finalPrecision + finalRecall)
  ⟨finalAccuracy, finalPrecision, finalRecall, finalF1, true⟩

/-- Applying the partial update to a stored record: the five listed fields
are set, every other field is untouched. -/
def applyUpdate (m : AiModel) (u : AiModelUpdate) : AiModel :=
  { m with accuracy := u.accuracy, precision := u.precision,
           recallVal := u.recallVal, f1Score := u.f1Score,
           isActive := u.isActive }

/-! ## Claim C9 -/

/-- Claim C9: on natural completion the finalized metrics satisfy
precision = accuracy × u1 with u1 in [0.95, 1], recall = accuracy × u2
with u2 in [0.93, 1], f1 = 2·precision·recall/(precision+recall), and
applying the update to the stored record persists exactly the fields
accuracy, precision, recall, f1Score and isActive = true, leaving every
other field unchanged. -/
theorem finalizeModel_spec (acc r1 r2 : ℝ) (m : AiModel)
    (h10 : 0 ≤ r1) (h11 : r1 < 1) (h20 : 0 ≤ r2) (h21 : r2 < 1) :
    (∃ u1, 0.95 ≤ u1 ∧ u1 ≤ 1 ∧ (finalizeModel acc r1 r2).precision = acc * u1)
    ∧ (∃ u2, 0.93 ≤ u2 ∧ u2 ≤ 1 ∧ (finalizeModel acc r1 r2).recallVal = acc * u2)
    ∧ (finalizeModel acc r1 r2).f1Score =
        2 * ((finalizeModel acc r1 r2).precision * (finalizeModel acc r1 r2).recallVal) /
          ((finalizeModel acc r1 r2).precision + (finalizeModel acc r1 r2).recallVal)
    ∧ (finalizeModel acc r1 r2).accuracy = acc
    ∧ (finalizeModel acc r1 r2).isActive = true
    ∧ (applyUpdate m (finalizeModel acc r1 r2)).accuracy = acc
    ∧ (applyUpdate m (finalizeModel acc r1 r2)).id = m.id
    ∧ (applyUpdate m (finalizeModel acc r1 r2)).name = m.name
    ∧ (applyUpdate m (finalizeModel acc r1 r2)).type = m.type
    ∧ (applyUpdate m (finalizeModel acc r1 r2)).version = m.version
    ∧ (applyUpdate m (finalizeModel acc r1 r2)).trainingData = m.trainingData
    ∧ (applyUpdate m (finalizeModel acc r1 r2)).parameters = m.parameters := by
  refine ⟨⟨0.95 + r1 * 0.05, by nlinarith, by nlinarith, rfl⟩,
    ⟨0.93 + r2 * 0.07, by nlinarith, by nlinarith, rfl⟩,
    rfl, rfl, rfl, rfl, rfl, rfl, rfl, rfl, rfl, rfl⟩

/-- A concrete stored record used by the C9 witness. -/
noncomputable def mBlank : AiModel :=
  { id := "m1", name := "Test", type := "CNN", version := "v1.0.0",
    accuracy := 0, precision := 0, recallVal := 0, f1Score := 0,
    trainingData := "Training on 10 samples", isActive := false,
    parameters := { architecture := "resnet", epochs := 1, batchSize := 10,
                    learningRate := 0.01, optimizer := "Adam" } }

/-- Witness for C9 at accuracy 0.9 and both random draws 0. -/
theorem finalizeModel_spec_witness :
    (∃ u1, 0.95 ≤ u1 ∧ u1 ≤ 1
      ∧ (finalizeModel 0.9 0 0).precision = 0.9 * u1)
    ∧ (∃ u2, 0.93 ≤ u2 ∧ u2 ≤ 1
      ∧ (finalizeModel 0.9 0 0).recallVal = 0.9 * u2)
    ∧ (finalizeModel 0.9 0 0).f1Score =
        2 * ((finalizeModel 0.9 0 0).precision * (finalizeModel 0.9 0 0).recallVal) /
          ((finalizeModel 0.9 0 0).precision + (finalizeModel 0.9 0 0).recallVal)
    ∧ (finalizeModel 0.9 0 0).accuracy = 0.9
    ∧ (finalizeModel 0.9 0 0).isActive = true
    ∧ (applyUpdate mBlank (finalizeModel 0.9 0 0)).accuracy = 0.9
    ∧ (applyUpdate mBlank (finalizeModel 0.9 0 0)).id = mBlank.id
    ∧ (applyUpdate mBlank (finalizeModel 0.9 0 0)).name = mBlank.name
    ∧ (applyUpdate mBlank (finalizeModel 0.9 0 0)).type = mBlank.type
    ∧ (applyUpdate mBlank (finalizeModel 0.9 0 0)).version = mBlank.version
    ∧ (applyUpdate mBlank (finalizeModel 0.9 0 0)).trainingData = mBlank.trainingData
    ∧ (applyUpdate mBlank (finalizeModel 0.9 0 0)).parameters = mBlank.parameters :=
  finalizeModel_spec 0.9 0 0 mBlank (by norm_num) (by norm_num) (by norm_num)
    (by norm_num)

/-! ## The AITrainingService job controller state

`activeTraining : Map<string, Timeout>` is modelled by its key set (the
timer handle itself has no observable content), `trainingProgress` and the
external store by association lists with unique keys, and the
`EventEmitter` emissions by a log of (event name, model id) pairs. -/

def assocGet {α : Type} : List (String × α) → String → Option α
  | [], _ => none
  | (k, v) :: t, key => if k = key then some v else assocGet t key

def assocSet {α : Type} : List (String × α) → String → α → List (String × α)
  | [], key, v => [(key, v)]
  | (k, w) :: t, key, v =>
    if k = key then (key, v) :: t else (k, w) :: assocSet t key v

theorem assocGet_set_self {α : Type} (l : List (String × α)) (key : String)
    (v : α) : assocGet (assocSet l key v) key = some v := by
  induction l with
  | nil => simp [assocGet, assocSet]
  | cons a t ih =>
    by_cases hk : a.1 = key
    · simp [assocSet, hk, assocGet]
    · simp only [assocSet, hk, if_false]
      simpa [assocGet, hk] using ih

/-- The live `TrainingProgress` record (ai-training.ts interface). -/
structure TrainingProgress where
  modelId : String
  epoch : Nat
  totalEpochs : Nat
  loss : ℝ
  accuracy : ℝ
  validationLoss : ℝ
  validationAccuracy : ℝ
  learningRate : ℝ
  estimatedTimeRemaining : ℝ
  status : TStatus
  currentBatch : Nat
  totalBatches : Nat

/-- The `startTraining` configuration object. -/
structure ModelConfig where
  name : String
  type : String
  architecture : String
  epochs : Nat
  batchSize : Nat
  learningRate : ℝ
  datasetSize : Nat

structure ServiceState where
  store : List (String × AiModel)
  activeTraining : List String
  trainingProgress : List (String × TrainingProgress)
  emitted : List (String × String)

/-- `AITrainingService.startTraining`: create the pending model record
(zero metrics, isActive = false), seed the job progress (status
`initializing`, totalBatches = ceil(datasetSize / batchSize)), then run
the synchronous prefix of `simulateTraining` (status set to `training`,
first update emitted, interval registered).  The id assigned by
`storage.createAiModel` is the parameter `newId`. -/
noncomputable def startTraining (s : ServiceState) (cfg : ModelConfig)
    (newId : String) : String × ServiceState :=
  let modelData : AiModel :=
    { id := newId, name := cfg.name, type := cfg.type, version := "v1.0.0",
      accuracy := 0, precision := 0, recallVal := 0, f1Score := 0,
      trainingData := "Training on " ++ toString cfg.datasetSize ++ " samples",
      isActive := false,
      parameters := { architecture := cfg.architecture, epochs := cfg.epochs,
                      batchSize := cfg.batchSize,
                      learningRate := cfg.learningRate, optimizer := "Adam" } }
  let progress : TrainingProgress :=
    { modelId := newId, epoch := 0, totalEpochs := cfg.epochs, loss := 0,
      accuracy := 0, validationLoss := 0, validationAccuracy := 0,
      learningRate := cfg.learningRate,
      estimatedTimeRemaining := ((cfg.epochs * 120 : Nat) : ℝ),
      status := TStatus.init, currentBatch := 0,
      totalBatches := (cfg.datasetSize + cfg.batchSize - 1) / cfg.batchSize }
  let progress1 := { progress with status := TStatus.training }
  (newId,
    { store := assocSet s.store newId modelData,
      activeTraining := s.activeTraining ++ [newId],
      trainingProgress := assocSet s.trainingProgress newId progress1,
      emitted := s.emitted ++ [("trainingUpdate", newId)] })

/-- `AITrainingService.stopTraining`: if a timer is registered for the id,
clear it, mark the progress `failed` (when a progress record exists) and
emit `trainingStopped`, returning true; otherwise return false. -/
noncomputable def stopTraining (s : ServiceState) (modelId : String) :
    Bool × ServiceState :=
  if modelId ∈ s.activeTraining then
    let act := s.activeTraining.filter (fun j => j != modelId)
    match assocGet s.trainingProgress modelId with
    | some p =>
      (true, { s with activeTraining := act,
                      trainingProgress := assocSet s.trainingProgress modelId
                        { p with status := TStatus.failed },
                      emitted := s.emitted ++ [("trainingStopped", modelId)] })
    | none => (true, { s with activeTraining := act })
  else (false, s)

/-- `AITrainingService.getTrainingProgress`. -/
def getTrainingProgress (s : ServiceState) (modelId : String) :
    Option TrainingProgress :=
  assocGet s.trainingProgress modelId

/-- `AITrainingService.getAllActiveTraining`: every stored progress whose
status is not `completed` (note: `failed` is NOT filtered out). -/
def getAllActiveTraining (s : ServiceState) : List TrainingProgress :=
  (s.trainingProgress.map (fun kv => kv.2)).filter
    (fun p => p.status != TStatus.completed)

/-! ## Claim C3 -/

noncomputable def cfgTest : ModelConfig :=
  { name := "Test", type := "CNN", architecture := "resnet", epochs := 2,
    batchSize := 10, learningRate := 0.01, datasetSize := 100 }

noncomputable def sStarted : ServiceState :=
  (startTraining ⟨[], [], [], []⟩ cfgTest "m1").2

noncomputable def sStopped : ServiceState := (stopTraining sStarted "m1").2

/-- Claim C3 is false as stated: after `stopTraining` sets a job's status
to `failed`, the job still appears in the listing returned by
`getAllActiveTraining`, because the filter only removes status
`completed`. -/
theorem failed_job_still_listed :
    (getAllActiveTraining sStopped).map (fun p => p.modelId) = ["m1"]
    ∧ (getTrainingProgress sStopped "m1").map (fun p => p.status) =
      some TStatus.failed
    ∧ (stopTraining sStarted "m1").1 = true :=
  ⟨rfl, rfl, rfl⟩

/-- Claim C3 (amended): a stored job progress appears in the active
listing if and only if its status is not `completed`; jobs whose status
became `failed` therefore remain in the listing, only `completed` removes
a job from it. -/
theorem getAllActiveTraining_iff (s : ServiceState) (p : TrainingProgress)
    (hp : p ∈ s.trainingProgress.map (fun kv => kv.2)) :
    p ∈ getAllActiveTraining s ↔ p.status ≠ TStatus.completed := by
  unfold getAllActiveTraining
  rw [List.mem_filter]
  simp [hp]

noncomputable def pFailed : TrainingProgress :=
  { modelId := "m1", epoch := 0, totalEpochs := 2, loss := 0, accuracy := 0,
    validationLoss := 0, validationAccuracy := 0, learningRate := 0.01,
    estimatedTimeRemaining := 240, status := TStatus.failed,
    currentBatch := 0, totalBatches := 10 }

/-- Witness for C3 (amended): a concrete failed job is in the listing. -/
theorem getAllActiveTraining_iff_witness :
    pFailed ∈ (⟨[], [], [("m1", pFailed)], []⟩ : ServiceState).trainingProgress.map
      (fun kv => kv.2)
    ∧ (pFailed ∈ getAllActiveTraining ⟨[], [], [("m1", pFailed)], []⟩ ↔
        pFailed.status ≠ TStatus.completed) :=
  ⟨by simp, getAllActiveTraining_iff ⟨[], [], [("m1", pFailed)], []⟩ pFailed (by simp)⟩

/-! ## Claim C5 -/

/-- Claim C5: `stopTraining` returns true exactly when a timer is active
for the job; in that case it removes the timer, sets the job's status to
`failed`, emits the `trainingStopped` event, and a second call returns
false and changes nothing; with no active timer it returns false and
leaves the state unchanged.  (The hypothesis that an active timer has a
progress record holds for every state the service API can reach, since
`simulateTraining` registers the timer only after the progress record is
stored.) -/
theorem stopTraining_spec (s : ServiceState) (jobId : String)
    (hp : jobId ∈ s.activeTraining → (assocGet s.trainingProgress jobId).isSome) :
    ((stopTraining s jobId).1 = true ↔ jobId ∈ s.activeTraining)
    ∧ (jobId ∈ s.activeTraining →
        jobId ∉ ((stopTraining s jobId).2).activeTraining
        ∧ (∃ p, getTrainingProgress ((stopTraining s jobId).2) jobId = some p
            ∧ p.status = TStatus.failed)
        ∧ ((stopTraining s jobId).2).emitted =
            s.emitted ++ [("trainingStopped", jobId)]
        ∧ stopTraining ((stopTraining s jobId).2) jobId =
            (false, (stopTraining s jobId).2))
    ∧ (jobId ∉ s.activeTraining → stopTraining s jobId = (false, s)) := by
  by_cases hin : jobId ∈ s.activeTraining
  · obtain ⟨p, hget⟩ := Option.isSome_iff_exists.mp (hp hin)
    have hred : stopTraining s jobId =
        (true, { s with
          activeTraining := s.activeTraining.filter (fun j => j != jobId),
          trainingProgress := assocSet s.trainingProgress jobId
            { p with status := TStatus.failed },
          emitted := s.emitted ++ [("trainingStopped", jobId)] }) := by
      unfold stopTraining
      rw [if_pos hin]
      simp only [hget]
    have hnot : jobId ∉ s.activeTraining.filter (fun j => j != jobId) := by
      simp [List.mem_filter]
    refine ⟨?_, ?_, ?_⟩
    · rw [hred]
      simp [hin]
    · intro _
      refine ⟨?_, ⟨{ p with status := TStatus.failed }, ?_, rfl⟩, ?_, ?_⟩
      · rw [hred]
        exact hnot
      · rw [hred]
        exact assocGet_set_self _ _ _
      · rw [hred]
      · rw [hred]
        unfold stopTraining
        simp only []
        rw [if_neg hnot]
    · intro hno
      exact absurd hin hno
  · have hred : stopTraining s jobId = (false, s) := by
      unfold stopTraining
      rw [if_neg hin]
    refine ⟨?_, fun h => absurd h hin, fun _ => hred⟩
    rw [hred]
    simp [hin]

noncomputable def pTraining : TrainingProgress :=
  { modelId := "m1", epoch := 0, totalEpochs := 2, loss := 0, accuracy := 0,
    validationLoss := 0, validationAccuracy := 0, learningRate := 0.01,
    estimatedTimeRemaining := 240, status := TStatus.training,
    currentBatch := 0, totalBatches := 10 }

noncomputable def sRunning : ServiceState := ⟨[], ["m1"], [("m1", pTraining)], []⟩

/-- Witness for C5 on a running one-job state. -/
theorem stopTraining_spec_witness :
    ((stopTraining sRunning "m1").1 = true ↔ "m1" ∈ sRunning.activeTraining)
    ∧ ("m1" ∈ sRunning.activeTraining →
        "m1" ∉ ((stopTraining sRunning "m1").2).activeTraining
        ∧ (∃ p, getTrainingProgress ((stopTraining sRunning "m1").2) "m1" = some p
            ∧ p.status = TStatus.failed)
        ∧ ((stopTraining sRunning "m1").2).emitted =
            sRunning.emitted ++ [("trainingStopped", "m1")]
        ∧ stopTraining ((stopTraining sRunning "m1").2) "m1" =
            (false, (stopTraining sRunning "m1").2))
    ∧ ("m1" ∉ sRunning.activeTraining → stopTraining sRunning "m1" = (false, sRunning)) :=
  stopTraining_spec sRunning "m1" (fun _ => rfl)

/-! ## Claim C10 -/

/-- Claim C10: cancellation never touches the external model store — the
state returned by `stopTraining` has the store of its input unchanged —
while the record created by `startTraining` carries zero metrics and
isActive = false (only `finalizeModel`, on natural completion, builds the
update that changes it). -/
theorem stopTraining_preserves_store :
    (∀ (s : ServiceState) (jobId : String),
      ((stopTraining s jobId).2).store = s.store)
    ∧ (∀ (s : ServiceState) (cfg : ModelConfig) (newId : String),
        ∃ m : AiModel,
          ((startTraining s cfg newId).2).store = assocSet s.store newId m
          ∧ m.accuracy = 0 ∧ m.precision = 0 ∧ m.recallVal = 0
          ∧ m.f1Score = 0 ∧ m.isActive = false) := by
  constructor
  · intro s jobId
    unfold stopTraining
    by_cases hin : jobId ∈ s.activeTraining
    · rw [if_pos hin]
      cases hget : assocGet s.trainingProgress jobId <;> simp only [hget]
    · rw [if_neg hin]
  · intro s cfg newId
    exact ⟨_, rfl, rfl, rfl, rfl, rfl, rfl⟩
